import Mathlib

/-!
Verification development for the Picture_Book_Generator repository.

The repository's entry point `generate_book.py` collects book information
from the user, generates the story text and the illustration images, and
finally calls `build_book.generate_book` to assemble the printable PDF.
The layout engine `build_book.py` itself is not part of the sources at
hand (only its caller is), so the layout-engine operations (fill-crop,
page assembly, spine width, the Text Fitter) are modelled from the spec,
as marked in their doc comments.  Everything else below is translated
from the Python sources `generate_book.py`, `demo_client.py`,
`generate_book_with_ai.py` and `prompts.py`.
-/

namespace PictureBook

/-! ## Word splitting and greedy word wrap (`save_placeholder_image`)

`generate_book.py` lines 172-198: the placeholder image renderer wraps the
prompt text with `prompt.split()` followed by a greedy accumulation loop
with hard-coded width 40 measured by `len`.
-/

/-- Python `str.isspace` characters relevant to `str.split()` (the six
ASCII whitespace characters Python treats as separators). -/
def pyIsSpace (c : Char) : Bool :=
  c = ' ' || c = '\t' || c = '\n' || c = '\r' || c = '\x0b' || c = '\x0c'

/-- Accumulator-based splitter behind `splitWS`; `cur` holds the current
word reversed. -/
def splitWSAux : List Char → List Char → List (List Char)
  | [], cur => if cur.isEmpty then [] else [cur.reverse]
  | c :: rest, cur =>
    if pyIsSpace c then
      if cur.isEmpty then splitWSAux rest [] else cur.reverse :: splitWSAux rest []
    else
      splitWSAux rest (c :: cur)

/-- Python `prompt.split()` (no argument): split on runs of whitespace,
dropping empty tokens. -/
def splitWS (cs : List Char) : List (List Char) := splitWSAux cs []

/-- The word list `prompt.split()` produces, as Lean strings. -/
def promptWords (prompt : String) : List String :=
  (splitWS prompt.toList).map (fun w => String.mk w)

/-- One iteration of the wrap loop in `save_placeholder_image`
(`generate_book.py` lines 183-190), generalised over the width measurer
`meas` (the source uses `len`) and the maximum width `maxW` (the source
uses 40):

    if len(line + ' ' + word) > 40: lines.append(line); line = word
    else:
        if line: line += ' '
        line += word
-/
def wrapStepM (meas : String → ℕ) (maxW : ℕ)
    (acc : List String × String) (word : String) : List String × String :=
  if maxW < meas (acc.2 ++ " " ++ word) then
    (acc.1 ++ [acc.2], word)
  else
    (acc.1, if acc.2 = "" then word else acc.2 ++ " " ++ word)

/-- The trailing `if line: lines.append(line)` of the wrap loop. -/
def finishWrap (acc : List String × String) : List String :=
  if acc.2 = "" then acc.1 else acc.1 ++ [acc.2]

/-- The whole wrap loop of `save_placeholder_image`, generalised over the
measurer and the maximum width. -/
def wrapWordsM (meas : String → ℕ) (maxW : ℕ) (ws : List String) : List String :=
  finishWrap (ws.foldl (wrapStepM meas maxW) ([], ""))

/-- The wrapped lines `save_placeholder_image` draws for a prompt:
`len` as the measurer and 40 as the maximum width, over `prompt.split()`. -/
def placeholderLines (prompt : String) : List String :=
  wrapWordsM String.length 40 (promptWords prompt)

/-! Helper lemmas for the greedy-wrap proofs. -/

/-- Lines already committed survive the rest of the fold and reach the
output. -/
lemma mem_finishWrap_foldl (meas : String → ℕ) (maxW : ℕ) (s : String) :
    ∀ (ws : List String) (ls : List String) (l : String), s ∈ ls →
      s ∈ finishWrap (ws.foldl (wrapStepM meas maxW) (ls, l)) := by
  intro ws
  induction ws with
  | nil =>
    intro ls l hs
    unfold finishWrap
    split
    · exact hs
    · exact List.mem_append_left _ hs
  | cons w ws ih =>
    intro ls l hs
    simp only [List.foldl_cons]
    unfold wrapStepM
    split
    · exact ih _ _ (List.mem_append_left _ hs)
    · exact ih _ _ hs

/-- If the current line is a single word wider than `maxW`, it reaches the
output unchanged: every later word forces a commit of the wide line. -/
lemma cur_wide_mem (meas : String → ℕ) (maxW : ℕ)
    (h2 : ∀ a b : String, meas a ≤ meas (a ++ b)) (w : String)
    (hw : maxW < meas w) (hw0 : w ≠ "") :
    ∀ (ws : List String) (ls : List String),
      w ∈ finishWrap (ws.foldl (wrapStepM meas maxW) (ls, w)) := by
  intro ws
  induction ws with
  | nil =>
    intro ls
    simp only [List.foldl_nil, finishWrap]
    rw [if_neg hw0]
    exact List.mem_append_right _ (List.mem_singleton.mpr rfl)
  | cons v ws ih =>
    intro ls
    simp only [List.foldl_cons]
    have hcommit : maxW < meas (w ++ " " ++ v) := by
      have := h2 w (" " ++ v)
      rw [← String.append_assoc] at this
      exact lt_of_lt_of_le hw this
    unfold wrapStepM
    rw [if_pos hcommit]
    exact mem_finishWrap_foldl meas maxW w ws _ v
      (List.mem_append_right _ (List.mem_singleton.mpr rfl))

/-- A word wider than `maxW` always ends up as a full output line,
whatever the wrap state was when it is reached. -/
lemma wide_word_mem (meas : String → ℕ) (maxW : ℕ)
    (h1 : ∀ a b : String, meas b ≤ meas (a ++ b))
    (h2 : ∀ a b : String, meas a ≤ meas (a ++ b))
    (w : String) (hw : maxW < meas w) (hw0 : w ≠ "") :
    ∀ (ws : List String) (ls : List String) (l : String), w ∈ ws →
      w ∈ finishWrap (ws.foldl (wrapStepM meas maxW) (ls, l)) := by
  intro ws
  induction ws with
  | nil => intro ls l h; cases h
  | cons v ws ih =>
    intro ls l hmem
    rcases List.mem_cons.mp hmem with hv | hv
    · subst hv
      simp only [List.foldl_cons]
      have hcommit : maxW < meas (l ++ " " ++ w) := by
        have := h1 (l ++ " ") w
        rw [String.append_assoc] at this
        exact lt_of_lt_of_le hw (by simpa [String.append_assoc] using h1 (l ++ " ") w)
      unfold wrapStepM
      rw [if_pos hcommit]
      exact cur_wide_mem meas maxW h2 w hw hw0 ws _
    · simp only [List.foldl_cons]
      exact ih _ _ hv

/-- Claim C3: the word-wrapper accumulates words into a line while the
measured width of `line ++ " " ++ word` is at most the maximum width,
otherwise commits the current line and starts a new line with that word;
a single word wider than the maximum width ends up alone on its own line
(not split), and the wrapper is a total function, so no error is raised.
The measurer is abstract; it need only be monotone under appending on
either side (true of `len` and of any pixel-width measure). -/
theorem wrap_greedy_long_word (meas : String → ℕ) (maxW : ℕ)
    (h1 : ∀ a b : String, meas b ≤ meas (a ++ b))
    (h2 : ∀ a b : String, meas a ≤ meas (a ++ b)) :
    (∀ (ls : List String) (l w : String), meas (l ++ " " ++ w) ≤ maxW →
      wrapStepM meas maxW (ls, l) w = (ls, if l = "" then w else l ++ " " ++ w))
    ∧ (∀ (ls : List String) (l w : String), maxW < meas (l ++ " " ++ w) →
      wrapStepM meas maxW (ls, l) w = (ls ++ [l], w))
    ∧ (∀ (ws : List String) (w : String), w ∈ ws → w ≠ "" → maxW < meas w →
      w ∈ wrapWordsM meas maxW ws) := by
  refine ⟨?_, ?_, ?_⟩
  · intro ls l w h
    unfold wrapStepM
    rw [if_neg (not_lt.mpr h)]
  · intro ls l w h
    unfold wrapStepM
    rw [if_pos h]
  · intro ws w hmem hw0 hw
    exact wide_word_mem meas maxW h1 h2 w hw hw0 ws [] "" hmem

/-- Witness for C3 with the source's `len` measurer: a 5-wide wrap
accumulates "ab"/"cd" while they fit, commits when they do not, and the
13-character word "extraordinary" lands alone on its own output line. -/
theorem wrap_greedy_long_word_witness :
    wrapStepM String.length 5 ([], "ab") "cd" = ([], "ab cd")
    ∧ wrapStepM String.length 5 ([], "abcd") "ef" = (["abcd"], "ef")
    ∧ "extraordinary" ∈ wrapWordsM String.length 5 ["hi", "extraordinary"] := by
  have h1 : ∀ a b : String, String.length b ≤ String.length (a ++ b) := by
    intro a b; rw [String.length_append]; exact Nat.le_add_left _ _
  have h2 : ∀ a b : String, String.length a ≤ String.length (a ++ b) := by
    intro a b; rw [String.length_append]; exact Nat.le_add_right _ _
  obtain ⟨hacc, hcommit, hlong⟩ := wrap_greedy_long_word String.length 5 h1 h2
  refine ⟨?_, ?_, ?_⟩
  · have h := hacc [] "ab" "cd" (by decide)
    rw [if_neg (by decide : ¬("ab" = ""))] at h
    exact h
  · exact hcommit [] "abcd" "ef" (by decide)
  · exact hlong ["hi", "extraordinary"] "extraordinary" (by decide) (by decide)
      (by decide)

/-! ## Hard line breaks (claim C4)

The only wrapping code among the sources is the one above: it tokenizes
with `prompt.split()`, which treats a hard line break as just another
whitespace separator and drops empty segments.  The spec's Text Fitter
(`build_book.py`, not among the sources) instead splits on hard breaks
first and preserves empty segments as blank lines; it is modelled below
for comparison. -/

/-- Python `text.split("\n")`: split on the hard line break character,
keeping empty segments. -/
def splitNL : List Char → List (List Char)
  | [] => [[]]
  | '\n' :: rest => [] :: splitNL rest
  | c :: rest =>
    match splitNL rest with
    | [] => [[c]]
    | p :: ps => (c :: p) :: ps

/-- Modelled from the spec: the Text Fitter's wrapping (`build_book.py`
is not among the sources).  Spec 4.2: "Split `text` on explicit hard
line breaks first; each resulting segment is independently word-wrapped;
an empty segment yields one preserved blank line". -/
def fitterWrap (meas : String → ℕ) (maxW : ℕ) (text : String) : List String :=
  (splitNL text.toList).flatMap (fun seg =>
    if seg.isEmpty then [""]
    else wrapWordsM meas maxW ((splitWS seg).map (fun w => String.mk w)))

/-- Counterexample for C4 as stated: the wrapper present in the sources
(`save_placeholder_image`) does not wrap "A\n\nB" to the three lines
"A", "", "B". -/
theorem placeholder_hard_break_cex :
    placeholderLines "A\n\nB" ≠ ["A", "", "B"] := by decide

/-- Every token emitted by the source's `prompt.split()` is nonempty:
empty segments between consecutive whitespace characters are dropped
before wrapping ever sees them. -/
lemma splitWS_ne_nil :
    ∀ (cs : List Char) (cur : List Char), ∀ w ∈ splitWSAux cs cur, w ≠ [] := by
  intro cs
  induction cs with
  | nil =>
    intro cur w hw
    unfold splitWSAux at hw
    split at hw
    · cases hw
    · rcases List.mem_singleton.mp hw with rfl
      intro hc
      rename_i hne
      simp only [List.isEmpty_iff] at hne
      exact hne (by simpa using List.reverse_eq_nil_iff.mp hc)
  | cons c rest ih =>
    intro cur w hw
    unfold splitWSAux at hw
    split at hw
    · split at hw
      · exact ih [] w hw
      · rcases List.mem_cons.mp hw with rfl | hw'
        · intro hc
          rename_i _ hne
          simp only [List.isEmpty_iff] at hne
          exact hne (by simpa using List.reverse_eq_nil_iff.mp hc)
        · exact ih [] w hw'
    · exact ih (c :: cur) w hw

/-- C4 amended: the wrapper in the sources splits on all whitespace and
drops empty segments, so "A\n\nB" wraps to the single line "A B"; the
spec-modelled Text Fitter, which splits on hard breaks first, is the one
that yields "A", "", "B". -/
theorem placeholder_wrap_whitespace :
    placeholderLines "A\n\nB" = ["A B"]
    ∧ (∀ (cs : List Char) (w : List Char), w ∈ splitWS cs → w ≠ [])
    ∧ fitterWrap String.length 40 "A\n\nB" = ["A", "", "B"] := by
  refine ⟨by decide, ?_, by decide⟩
  intro cs w hw
  exact splitWS_ne_nil cs [] w hw

/-- Witness for the amended C4: a concrete token of `splitWS` observed
nonempty via the theorem, next to the concrete single-line wrap. -/
theorem placeholder_wrap_whitespace_witness :
    (['A'] : List Char) ≠ [] ∧ placeholderLines "A\n\nB" = ["A B"] :=
  ⟨placeholder_wrap_whitespace.2.1 ("A B").toList ['A'] (by decide),
    placeholder_wrap_whitespace.1⟩

/-! ## Page-count prompting (`prompt_user`, claim C9)

`generate_book.py` lines 93-160.  The interactive stream is modelled as
the list of outcomes of successive `int(input(...))` calls: `some n`
when parsing succeeds with value `n`, `none` when `int` raises
`ValueError`. -/

/-- The new-book validation loop (`generate_book.py` lines 131-139):
re-prompt on a parse failure or a value below 12, stop at the first
parsed value `≥ 12`.  An exhausted stream is `none` (the real loop would
keep waiting for input). -/
def askPages : List (Option ℤ) → Option ℤ
  | [] => none
  | none :: rest => askPages rest
  | some n :: rest => if n < 12 then askPages rest else some n

/-- The `pages` value `prompt_user` returns: the reuse path (lines
103-110) hands back the stored `prompt.json` value unchanged, with no
minimum check; only the new-book path runs the validation loop. -/
def promptUserPages : Option ℤ → List (Option ℤ) → Option ℤ
  | some stored, _ => some stored
  | none, entries => askPages entries

/-- Claim C9: a newly created book always gets `pages ≥ 12` (smaller or
unparsable entries are re-prompted), while a reused `prompt.json` value
is returned unchanged with no minimum check, so a reused prompt may
yield fewer than 12 pages. -/
theorem prompt_user_pages_min :
    (∀ (entries : List (Option ℤ)) (n : ℤ), askPages entries = some n → 12 ≤ n)
    ∧ (∀ rest : List (Option ℤ), askPages (none :: rest) = askPages rest)
    ∧ (∀ (n : ℤ) (rest : List (Option ℤ)), n < 12 →
        askPages (some n :: rest) = askPages rest)
    ∧ (∀ (stored : ℤ) (entries : List (Option ℤ)),
        promptUserPages (some stored) entries = some stored) := by
  refine ⟨?_, fun rest => rfl, ?_, fun stored entries => rfl⟩
  · intro entries
    induction entries with
    | nil => intro n h; cases h
    | cons e rest ih =>
      intro n h
      cases e with
      | none => exact ih n h
      | some m =>
        rw [askPages] at h
        split at h
        · exact ih n h
        · rename_i hm
          cases h
          omega
  · intro n rest hn
    rw [askPages, if_pos hn]

/-- Witness for C9: the stream 5, ValueError, 20 ends with 20 ≥ 12, and
a reused stored value 5 (below the minimum) is returned unchanged. -/
theorem prompt_user_pages_min_witness :
    (12 : ℤ) ≤ 20 ∧ promptUserPages (some 5) [] = some 5 :=
  ⟨prompt_user_pages_min.1 [some 5, none, some 20] 20 (by decide),
    prompt_user_pages_min.2.2.2 5 []⟩

/-! ## Demo chat client (`demo_client.py`, claim C10)

`_demo_story_from_prompt` searches the prompt with the Python regex
`r"(\d+)[- ]?page|exactly (\d+) paragraphs"` (IGNORECASE), defaults to
12 pages, and joins one sentence per page with blank lines.  The regex
is embedded directly: `\d+` is greedy and can never profitably backtrack
here (a shorter digit run leaves a digit where `[- ]` or a letter is
required), so maximal-munch digit scanning is exact.  ASCII digits and
ASCII case folding model the `str` semantics used by the demo prompts. -/

/-- The ten ASCII digit characters. -/
def digitChars : List Char := ['0', '1', '2', '3', '4', '5', '6', '7', '8', '9']

/-- The digit character of a value below ten. -/
def digitChar (d : ℕ) : Char := digitChars.getD d '9'

lemma digitChar_mem (d : ℕ) : digitChar d ∈ digitChars := by
  unfold digitChar
  by_cases hd : d < digitChars.length
  · have hd' : d < 10 := by simpa [digitChars] using hd
    interval_cases d <;> decide
  · rw [List.getD_eq_default _ _ (le_of_not_lt hd)]
    decide

/-- Decimal digits of `n`, most significant first, with a structural
fuel bound so the kernel can evaluate it (`n + 1` calls always
suffice). -/
def natCharsGo : ℕ → ℕ → List Char
  | 0, _ => []
  | _ + 1, 0 => []
  | fuel + 1, n + 1 => natCharsGo fuel ((n + 1) / 10) ++ [digitChar ((n + 1) % 10)]

/-- Python `str(n)` for a natural number. -/
def natChars (n : ℕ) : List Char :=
  if n = 0 then ['0'] else natCharsGo (n + 1) n

lemma natCharsGo_mem : ∀ (fuel n : ℕ), ∀ c ∈ natCharsGo fuel n, c ∈ digitChars := by
  intro fuel
  induction fuel with
  | zero => intro n c hc; simp [natCharsGo] at hc
  | succ f ih =>
    intro n c hc
    cases n with
    | zero => simp [natCharsGo] at hc
    | succ m =>
      rw [natCharsGo] at hc
      rcases List.mem_append.mp hc with h1 | h2
      · exact ih _ c h1
      · rcases List.mem_singleton.mp h2 with rfl
        exact digitChar_mem _

lemma natChars_mem (n : ℕ) : ∀ c ∈ natChars n, c ∈ digitChars := by
  intro c hc
  unfold natChars at hc
  split at hc
  · rcases List.mem_singleton.mp hc with rfl
    decide
  · exact natCharsGo_mem (n + 1) n c hc

/-- `\d` (ASCII). -/
def isDigitCh (c : Char) : Bool := '0' ≤ c && c ≤ '9'

/-- `int` of one digit character. -/
def digitVal (c : Char) : ℕ := c.toNat - '0'.toNat

/-- Python `int` on a digit string. -/
def digitsToNat (ds : List Char) : ℕ := ds.foldl (fun a c => a * 10 + digitVal c) 0

/-- Maximal-munch `\d+`: the leading digit run and the remainder. -/
def takeDigits : List Char → List Char × List Char
  | [] => ([], [])
  | c :: rest =>
    if isDigitCh c then
      let (ds, r) := takeDigits rest
      (c :: ds, r)
    else ([], c :: rest)

/-- Case-insensitive literal match, returning the remainder on success. -/
def matchCI : List Char → List Char → Option (List Char)
  | [], rest => some rest
  | _ :: _, [] => none
  | p :: ps, c :: cs => if c.toLower = p.toLower then matchCI ps cs else none

/-- First regex alternative `(\d+)[- ]?page` anchored at the start of
`cs`: digits, an optional `-` or space, then `page` (case-insensitive). -/
def matchAlt1 (cs : List Char) : Option ℕ :=
  match takeDigits cs with
  | (ds, rest) =>
    if ds.isEmpty then none
    else
      match rest with
      | [] => none
      | c :: rest2 =>
        if c = '-' ∨ c = ' ' then
          match matchCI ("page").toList rest2 with
          | some _ => some (digitsToNat ds)
          | none =>
            match matchCI ("page").toList rest with
            | some _ => some (digitsToNat ds)
            | none => none
        else
          match matchCI ("page").toList rest with
          | some _ => some (digitsToNat ds)
          | none => none

/-- Second regex alternative `exactly (\d+) paragraphs` anchored at the
start of `cs`. -/
def matchAlt2 (cs : List Char) : Option ℕ :=
  match matchCI ("exactly ").toList cs with
  | none => none
  | some r1 =>
    match takeDigits r1 with
    | (ds, r2) =>
      if ds.isEmpty then none
      else
        match matchCI (" paragraphs").toList r2 with
        | some _ => some (digitsToNat ds)
        | none => none

/-- `re.search`: leftmost position first, first alternative first. -/
def searchPages : List Char → Option ℕ
  | [] => none
  | c :: rest =>
    match matchAlt1 (c :: rest) with
    | some n => some n
    | none =>
      match matchAlt2 (c :: rest) with
      | some n => some n
      | none => searchPages rest

/-- The page count `_demo_story_from_prompt` extracts (12 when the regex
does not match). -/
def demoPages (prompt : String) : ℕ := (searchPages prompt.toList).getD 12

/-- One demo sentence: `f"This is demo text for page {i}."`. -/
def pageSentence (i : ℕ) : List Char :=
  ("This is demo text for page ").toList ++ natChars i ++ ['.']

/-- Python `"\n\n".join(parts)`. -/
def joinPars : List (List Char) → List Char
  | [] => []
  | [p] => p
  | p :: q :: rest => p ++ '\n' :: '\n' :: joinPars (q :: rest)

/-- The demo story text for a page count. -/
def demoStoryChars (pages : ℕ) : List Char :=
  joinPars ((List.range' 1 pages).map pageSentence)

/-- `_demo_story_from_prompt` (demo_client.py lines 34-40). -/
def demoStoryFromPrompt (prompt : String) : String :=
  String.mk (demoStoryChars (demoPages prompt))

/-- Python `text.split("\n\n")`: non-overlapping left-to-right split on
the blank-line separator, keeping empty parts. -/
def splitPar : List Char → List (List Char)
  | [] => [[]]
  | [c] => [[c]]
  | c :: d :: rest =>
    if c = '\n' ∧ d = '\n' then [] :: splitPar rest
    else
      match splitPar (d :: rest) with
      | [] => [[c]]
      | p :: ps => (c :: p) :: ps

/-- The paragraph count the generator uses on story text:
`len([p for p in text.split("\n\n") if p.strip()])` for parts with no
surrounding whitespace reduces to counting nonempty parts. -/
def countNonEmptyPars (cs : List Char) : ℕ :=
  ((splitPar cs).filter (fun p => !p.isEmpty)).length

/-- `DemoChatCompletions.create`: the story prompt is the last
user-role message (demo_client.py lines 65-73). -/
structure ChatMsg where
  role : String
  content : String

/-- The content of the last user-role message, `""` when there is none. -/
def lastUserContent (msgs : List ChatMsg) : String :=
  match msgs.reverse.find? (fun m => m.role = "user") with
  | some m => m.content
  | none => ""

/-- The chat content `DemoChatCompletions.create` returns. -/
def demoCreate (msgs : List ChatMsg) : String :=
  demoStoryFromPrompt (lastUserContent msgs)

lemma splitPar_no_nl : ∀ cs : List Char, '\n' ∉ cs → splitPar cs = [cs] := by
  intro cs
  induction cs with
  | nil => intro _; rfl
  | cons c rest ih =>
    intro h
    have hc : c ≠ '\n' := fun hh => h (hh ▸ List.mem_cons_self _ _)
    have hrest : '\n' ∉ rest := fun hh => h (List.mem_cons_of_mem _ hh)
    cases rest with
    | nil => rfl
    | cons d rest2 =>
      simp only [splitPar]
      rw [if_neg (fun hand => hc hand.1), ih hrest]

lemma splitPar_append_sep : ∀ (p tail : List Char), '\n' ∉ p →
    splitPar (p ++ '\n' :: '\n' :: tail) = p :: splitPar tail := by
  intro p
  induction p with
  | nil =>
    intro tail _
    simp [splitPar]
  | cons a p' ih =>
    intro tail h
    have ha : a ≠ '\n' := fun hh => h (hh ▸ List.mem_cons_self _ _)
    have hp' : '\n' ∉ p' := fun hh => h (List.mem_cons_of_mem _ hh)
    have hrec : splitPar (p' ++ '\n' :: '\n' :: tail) = p' :: splitPar tail :=
      ih tail hp'
    cases hx : p' ++ '\n' :: '\n' :: tail with
    | nil => exact absurd hx (by simp)
    | cons b xs =>
      rw [hx] at hrec
      simp only [List.cons_append, hx, splitPar]
      rw [if_neg (fun hand => ha hand.1), hrec]

lemma splitPar_joinPars : ∀ ps : List (List Char), (∀ p ∈ ps, '\n' ∉ p) →
    ps ≠ [] → splitPar (joinPars ps) = ps := by
  intro ps
  induction ps with
  | nil => intro _ h; exact absurd rfl h
  | cons p ps' ih =>
    intro hnl _
    cases ps' with
    | nil =>
      simp only [joinPars]
      exact splitPar_no_nl p (hnl p (by simp))
    | cons q rest =>
      simp only [joinPars]
      rw [splitPar_append_sep p (joinPars (q :: rest)) (hnl p (by simp)),
        ih (fun x hx => hnl x (List.mem_cons_of_mem _ hx)) (by simp)]

lemma pageSentence_no_nl (i : ℕ) : '\n' ∉ pageSentence i := by
  intro h
  unfold pageSentence at h
  rcases List.mem_append.mp h with h1 | h2
  · rcases List.mem_append.mp h1 with ha | hb
    · exact absurd ha (by decide)
    · exact absurd (natChars_mem i '\n' hb) (by decide)
  · exact absurd h2 (by decide)

lemma pageSentence_ne_nil (i : ℕ) : pageSentence i ≠ [] := by
  unfold pageSentence
  simp

lemma count_demoStoryChars (pages : ℕ) :
    countNonEmptyPars (demoStoryChars pages) = pages := by
  cases pages with
  | zero => rfl
  | succ m =>
    unfold countNonEmptyPars demoStoryChars
    rw [splitPar_joinPars ((List.range' 1 (m + 1)).map pageSentence)
      (fun p hp => by
        rcases List.mem_map.mp hp with ⟨i, _, rfl⟩
        exact pageSentence_no_nl i)
      (by simp)]
    rw [List.filter_eq_self.mpr (fun p hp => by
      rcases List.mem_map.mp hp with ⟨i, _, rfl⟩
      simpa using pageSentence_ne_nil i)]
    simp

/-- Claim C10: the demo story text always splits on blank lines into
exactly the number of nonempty paragraphs the regex extracted from the
prompt (12 when no page pattern occurs), both for
`_demo_story_from_prompt` directly and through
`DemoChatCompletions.create` on the last user message. -/
theorem demo_story_paragraph_count :
    (∀ prompt : String,
      countNonEmptyPars (demoStoryFromPrompt prompt).toList = demoPages prompt)
    ∧ (∀ prompt : String, searchPages prompt.toList = none →
      countNonEmptyPars (demoStoryFromPrompt prompt).toList = 12)
    ∧ (∀ msgs : List ChatMsg,
      countNonEmptyPars (demoCreate msgs).toList
        = demoPages (lastUserContent msgs)) := by
  have key : ∀ prompt : String,
      countNonEmptyPars (demoStoryFromPrompt prompt).toList = demoPages prompt := by
    intro prompt
    have hl : (demoStoryFromPrompt prompt).toList
        = demoStoryChars (demoPages prompt) := rfl
    rw [hl, count_demoStoryChars]
  refine ⟨key, ?_, fun msgs => key _⟩
  intro prompt h
  rw [key prompt]
  unfold demoPages
  rw [h]
  rfl

/-- Witness for C10: a prompt requesting a 3-page book yields a story
counted by the regex extraction, and a patternless prompt yields 12
paragraphs. -/
theorem demo_story_paragraph_count_witness :
    countNonEmptyPars (demoStoryFromPrompt "Write a 3-page book.").toList
      = demoPages "Write a 3-page book."
    ∧ countNonEmptyPars (demoStoryFromPrompt "hello").toList = 12 :=
  ⟨demo_story_paragraph_count.1 "Write a 3-page book.",
    demo_story_paragraph_count.2.1 "hello" (by decide)⟩

/-! ## Illustration addressing (`main`, claim C8)

`generate_book.py`: the title-page image is saved as `page1.jpg` (line
393) and the illustration of the i-th paragraph, counted from 1 by
`enumerate(pages, start=1)`, is saved as `page{i+1}.jpg` (lines
430-443), so paragraph images live at page positions 2..n+1. -/

/-- The 1-based page position whose file receives the illustration of
the i-th paragraph (1-based). -/
def imagePosOfParagraph (i : ℕ) : ℕ := i + 1

/-- The page position of the title-page image (`page1.jpg`). -/
def titlePagePos : ℕ := 1

/-- The file name `f"page{pos}.jpg"`. -/
def pageImageFile (pos : ℕ) : String :=
  String.mk (("page").toList ++ natChars pos ++ (".jpg").toList)

/-- The image file of the i-th paragraph (1-based). -/
def paragraphImageFile (i : ℕ) : String := pageImageFile (imagePosOfParagraph i)

/-- The image files of an n-paragraph story, in paragraph order. -/
def storyImageFiles (n : ℕ) : List String :=
  (List.range' 1 n).map paragraphImageFile

/-- Counterexample for C8 as stated: the illustration of the first
paragraph is not the raster stored at position 1 — `main` writes it to
`page2.jpg`, while `page1.jpg` holds the title page. -/
theorem paragraph_image_offset_cex :
    paragraphImageFile 1 ≠ pageImageFile 1 := by decide

/-- C8 amended: the generator produces exactly one illustration raster
per paragraph, but the raster of the i-th paragraph (1-based) is stored
at page position i + 1 (file `page{i+1}.jpg`); position 1 is the
title-page image, never a paragraph illustration. -/
theorem paragraph_image_addressing :
    (∀ i j : ℕ, imagePosOfParagraph i = imagePosOfParagraph j → i = j)
    ∧ (∀ n : ℕ, (storyImageFiles n).length = n)
    ∧ (∀ i : ℕ, imagePosOfParagraph i = i + 1)
    ∧ (∀ i : ℕ, 1 ≤ i → imagePosOfParagraph i ≠ titlePagePos)
    ∧ paragraphImageFile 1 = "page2.jpg"
    ∧ pageImageFile titlePagePos = "page1.jpg" := by
  refine ⟨?_, ?_, fun i => rfl, ?_, by decide, by decide⟩
  · intro i j h
    simpa [imagePosOfParagraph] using h
  · intro n
    simp [storyImageFiles]
  · intro i hi
    unfold imagePosOfParagraph titlePagePos
    omega

/-- Witness for the amended C8 at paragraph 1. -/
theorem paragraph_image_addressing_witness :
    imagePosOfParagraph 1 ≠ titlePagePos ∧ paragraphImageFile 1 = "page2.jpg" :=
  ⟨paragraph_image_addressing.2.2.2.1 1 le_rfl,
    paragraph_image_addressing.2.2.2.2.1⟩

/-! ## Layout engine, modelled from the spec

`generate_book.py` delegates PDF assembly to `build_book.generate_book`
(line 10 and line 470), but `build_book.py` is not among the sources at
hand.  The Image Compositor, Book Assembler, spine formula and
assemble-run determinism below are therefore modelled from the spec's
own formulas (spec sections 4.3, 4.5, 4.1, 8), as the relevant claims'
reasons record. -/

/-- An in-memory raster's dimensions. -/
structure Raster where
  w : ℕ
  h : ℕ
deriving DecidableEq

/-- Modelled from the spec: the Image Compositor's scale factor
`max(targetW/srcW, targetH/srcH)` (spec 4.3; `build_book.py` is not
among the sources). -/
def fcScale (srcW srcH tw th : ℕ) : ℚ :=
  max ((tw : ℚ) / srcW) ((th : ℚ) / srcH)

/-- Modelled from the spec: the resized intermediate width
`round(srcW × scale)`. -/
def resizedW (srcW srcH tw th : ℕ) : ℤ :=
  round ((srcW : ℚ) * fcScale srcW srcH tw th)

/-- Modelled from the spec: the resized intermediate height
`round(srcH × scale)`. -/
def resizedH (srcW srcH tw th : ℕ) : ℤ :=
  round ((srcH : ℚ) * fcScale srcW srcH tw th)

/-- Modelled from the spec: the symmetric crop offset
`left = round((resizedW − targetW)/2)`. -/
def cropLeft (srcW srcH tw th : ℕ) : ℤ :=
  round (((resizedW srcW srcH tw th : ℚ) - tw) / 2)

/-- Modelled from the spec: the symmetric crop offset
`top = round((resizedH − targetH)/2)`. -/
def cropTop (srcW srcH tw th : ℕ) : ℤ :=
  round (((resizedH srcW srcH tw th : ℚ) - th) / 2)

/-- Modelled from the spec: the crop box
`[left, top, left + targetW, top + targetH]`. -/
def cropBox (srcW srcH tw th : ℕ) : ℤ × ℤ × ℤ × ℤ :=
  (cropLeft srcW srcH tw th, cropTop srcW srcH tw th,
    cropLeft srcW srcH tw th + tw, cropTop srcW srcH tw th + th)

/-- The size a PIL `crop((left, top, right, bottom))` call returns:
`(right − left, bottom − top)`. -/
def pilCropSize (box : ℤ × ℤ × ℤ × ℤ) : ℤ × ℤ :=
  (box.2.2.1 - box.1, box.2.2.2 - box.2.1)

/-- Modelled from the spec: the output size of `fillCrop`. -/
def fillCropSize (srcW srcH tw th : ℕ) : ℤ × ℤ :=
  pilCropSize (cropBox srcW srcH tw th)

lemma roundQ_mono {x y : ℚ} (h : x ≤ y) : round x ≤ round y := by
  rw [round_eq, round_eq]
  exact Int.floor_le_floor (by linarith)

lemma roundQ_half_le (d : ℤ) (hd : 0 ≤ d) : round ((d : ℚ) / 2) ≤ d := by
  rw [round_eq]
  have h1 : ((d : ℚ) / 2 + 1 / 2) < ((d + 1 : ℤ) : ℚ) := by
    push_cast
    have : (0 : ℚ) ≤ (d : ℚ) := by exact_mod_cast hd
    linarith
  have h2 := Int.floor_lt.mpr h1
  omega

/-- Claim C1: `fillCrop` produces exactly the target size — the crop box
measures `(targetW, targetH)` and sits entirely inside the resized
intermediate, so no residual border appears — and the intermediate
matches `max(w/srcW, h/srcH)` scaling within one pixel of rounding. -/
theorem fillCrop_exact (srcW srcH tw th : ℕ)
    (hsw : 0 < srcW) (hsh : 0 < srcH) (_htw : 0 < tw) (_hth : 0 < th) :
    fillCropSize srcW srcH tw th = (((tw : ℕ) : ℤ), ((th : ℕ) : ℤ))
    ∧ 0 ≤ cropLeft srcW srcH tw th
    ∧ cropLeft srcW srcH tw th + ((tw : ℕ) : ℤ) ≤ resizedW srcW srcH tw th
    ∧ 0 ≤ cropTop srcW srcH tw th
    ∧ cropTop srcW srcH tw th + ((th : ℕ) : ℤ) ≤ resizedH srcW srcH tw th
    ∧ |(resizedW srcW srcH tw th : ℚ) - ((srcW : ℕ) : ℚ) * fcScale srcW srcH tw th| ≤ 1
    ∧ |(resizedH srcW srcH tw th : ℚ) - ((srcH : ℕ) : ℚ) * fcScale srcW srcH tw th| ≤ 1 := by
  have hsw' : (0 : ℚ) < (srcW : ℚ) := by exact_mod_cast hsw
  have hsh' : (0 : ℚ) < (srcH : ℚ) := by exact_mod_cast hsh
  have hwq : ((tw : ℕ) : ℚ) ≤ (srcW : ℚ) * fcScale srcW srcH tw th := by
    have hle : ((tw : ℕ) : ℚ) / (srcW : ℚ) ≤ fcScale srcW srcH tw th :=
      le_max_left _ _
    have h0 : ((tw : ℕ) : ℚ) = (srcW : ℚ) * (((tw : ℕ) : ℚ) / (srcW : ℚ)) := by
      field_simp
    rw [h0]
    exact mul_le_mul_of_nonneg_left hle (le_of_lt hsw')
  have hhq : ((th : ℕ) : ℚ) ≤ (srcH : ℚ) * fcScale srcW srcH tw th := by
    have hle : ((th : ℕ) : ℚ) / (srcH : ℚ) ≤ fcScale srcW srcH tw th :=
      le_max_right _ _
    have h0 : ((th : ℕ) : ℚ) = (srcH : ℚ) * (((th : ℕ) : ℚ) / (srcH : ℚ)) := by
      field_simp
    rw [h0]
    exact mul_le_mul_of_nonneg_left hle (le_of_lt hsh')
  have hrw : ((tw : ℕ) : ℤ) ≤ resizedW srcW srcH tw th := by
    have := roundQ_mono hwq
    rwa [round_natCast] at this
  have hrh : ((th : ℕ) : ℤ) ≤ resizedH srcW srcH tw th := by
    have := roundQ_mono hhq
    rwa [round_natCast] at this
  have hdw : (0 : ℤ) ≤ resizedW srcW srcH tw th - tw := by omega
  have hdh : (0 : ℤ) ≤ resizedH srcW srcH tw th - th := by omega
  have hlformw : cropLeft srcW srcH tw th
      = round (((resizedW srcW srcH tw th - tw : ℤ) : ℚ) / 2) := by
    unfold cropLeft
    norm_cast
  have hlformh : cropTop srcW srcH tw th
      = round (((resizedH srcW srcH tw th - th : ℤ) : ℚ) / 2) := by
    unfold cropTop
    norm_cast
  have hl0 : 0 ≤ cropLeft srcW srcH tw th := by
    rw [hlformw]
    have h0 : (0 : ℚ) ≤ ((resizedW srcW srcH tw th - tw : ℤ) : ℚ) / 2 := by
      have : (0 : ℚ) ≤ ((resizedW srcW srcH tw th - tw : ℤ) : ℚ) := by
        exact_mod_cast hdw
      linarith
    have := roundQ_mono h0
    rwa [round_zero] at this
  have ht0 : 0 ≤ cropTop srcW srcH tw th := by
    rw [hlformh]
    have h0 : (0 : ℚ) ≤ ((resizedH srcW srcH tw th - th : ℤ) : ℚ) / 2 := by
      have : (0 : ℚ) ≤ ((resizedH srcW srcH tw th - th : ℤ) : ℚ) := by
        exact_mod_cast hdh
      linarith
    have := roundQ_mono h0
    rwa [round_zero] at this
  have hlw : cropLeft srcW srcH tw th + ((tw : ℕ) : ℤ) ≤ resizedW srcW srcH tw th := by
    have := roundQ_half_le (resizedW srcW srcH tw th - tw) hdw
    rw [← hlformw] at this
    omega
  have hlh : cropTop srcW srcH tw th + ((th : ℕ) : ℤ) ≤ resizedH srcW srcH tw th := by
    have := roundQ_half_le (resizedH srcW srcH tw th - th) hdh
    rw [← hlformh] at this
    omega
  refine ⟨?_, hl0, hlw, ht0, hlh, ?_, ?_⟩
  · unfold fillCropSize pilCropSize cropBox
    simp only [Prod.mk.injEq]
    constructor <;> ring
  · have h := abs_sub_round ((srcW : ℚ) * fcScale srcW srcH tw th)
    have h' : |(resizedW srcW srcH tw th : ℚ)
        - (srcW : ℚ) * fcScale srcW srcH tw th| ≤ 1 / 2 := by
      rw [abs_sub_comm]
      exact h
    linarith
  · have h := abs_sub_round ((srcH : ℚ) * fcScale srcW srcH tw th)
    have h' : |(resizedH srcW srcH tw th : ℚ)
        - (srcH : ℚ) * fcScale srcW srcH tw th| ≤ 1 / 2 := by
      rw [abs_sub_comm]
      exact h
    linarith

/-- Witness for C1 on a 640×480 source filled into a 100×100 target:
the crop box is exactly 100×100, inside the 133×100 intermediate. -/
theorem fillCrop_exact_witness :
    fillCropSize 640 480 100 100 = (((100 : ℕ) : ℤ), ((100 : ℕ) : ℤ))
    ∧ 0 ≤ cropLeft 640 480 100 100
    ∧ cropLeft 640 480 100 100 + ((100 : ℕ) : ℤ) ≤ resizedW 640 480 100 100
    ∧ 0 ≤ cropTop 640 480 100 100
    ∧ cropTop 640 480 100 100 + ((100 : ℕ) : ℤ) ≤ resizedH 640 480 100 100
    ∧ |(resizedW 640 480 100 100 : ℚ) - ((640 : ℕ) : ℚ) * fcScale 640 480 100 100| ≤ 1
    ∧ |(resizedH 640 480 100 100 : ℚ) - ((480 : ℕ) : ℚ) * fcScale 640 480 100 100| ≤ 1 :=
  fillCrop_exact 640 480 100 100 (by norm_num) (by norm_num) (by norm_num)
    (by norm_num)

/-! ## Book Assembler, modelled from the spec (claims C2, C5, C7) -/

/-- A rendered page with its role (spec section 3, "Page"). -/
inductive PageKind
  | coverPage : Raster → PageKind
  | illusPage : Raster → PageKind
  | textPage : String → PageKind
  | blankPage : PageKind
deriving DecidableEq

/-- The Book aggregate (spec section 3): title, ordered paragraphs, a
cover raster, one illustration raster per paragraph. -/
structure BookM where
  title : String
  paragraphs : List String
  cover : Raster
  illus : List Raster

/-- Modelled from the spec: the Book Assembler's interior page sequence
(spec 4.5; `build_book.py` is not among the sources): no cover page, and
for each paragraph in order an illustration page then a text page. -/
def interiorDoc (b : BookM) : List PageKind :=
  (b.paragraphs.zip b.illus).flatMap
    (fun pr => [PageKind.illusPage pr.2, PageKind.textPage pr.1])

lemma flatMap_pair_length {α β : Type} (l : List α) (f g : α → β) :
    (l.flatMap (fun x => [f x, g x])).length = 2 * l.length := by
  induction l with
  | nil => rfl
  | cons a l ih =>
    simp only [List.flatMap_cons, List.length_append, List.length_cons, ih]
    simp
    omega

lemma flatMap_pair_getElem {α β : Type} (l : List α) (f g : α → β) :
    ∀ i : ℕ, (l.flatMap (fun x => [f x, g x]))[2 * i]? = (l[i]?).map f
      ∧ (l.flatMap (fun x => [f x, g x]))[2 * i + 1]? = (l[i]?).map g := by
  induction l with
  | nil => intro i; simp
  | cons a l ih =>
    intro i
    cases i with
    | zero => simp [List.flatMap_cons]
    | succ j =>
      obtain ⟨h1, h2⟩ := ih j
      rw [List.flatMap_cons]
      have hlen : ([f a, g a] : List β).length = 2 := rfl
      constructor
      · have hge : ([f a, g a] : List β).length ≤ 2 * (j + 1) := by
          rw [hlen]; omega
        rw [List.getElem?_append_right hge, hlen]
        have he : 2 * (j + 1) - 2 = 2 * j := by omega
        rw [he, h1, List.getElem?_cons_succ]
      · have hge : ([f a, g a] : List β).length ≤ 2 * (j + 1) + 1 := by
          rw [hlen]; omega
        rw [List.getElem?_append_right hge, hlen]
        have he : 2 * (j + 1) + 1 - 2 = 2 * j + 1 := by omega
        rw [he, h2, List.getElem?_cons_succ]

/-- The first sample illustration of the page-order scenario. -/
def sampleIll1 : Raster := ⟨600, 600⟩

/-- The second sample illustration of the page-order scenario. -/
def sampleIll2 : Raster := ⟨700, 700⟩

/-- The page-order scenario book: title "Sample", two paragraphs, a
cover image and two illustration images. -/
def sampleBook : BookM :=
  ⟨"Sample", ["The cat sat.", "The dog ran."], ⟨1024, 1024⟩,
    [sampleIll1, sampleIll2]⟩

/-- Claim C2: the interior document of an N-paragraph book has exactly
2×N pages, contains no cover page, and pairs each paragraph in order as
illustration page immediately followed by text page; the two-paragraph
sample book yields exactly [illustration1, text1, illustration2,
text2]. -/
theorem interior_page_order :
    (∀ b : BookM, b.illus.length = b.paragraphs.length →
      (interiorDoc b).length = 2 * b.paragraphs.length)
    ∧ (∀ b : BookM, ∀ p ∈ interiorDoc b, ∀ c : Raster, p ≠ PageKind.coverPage c)
    ∧ (∀ (b : BookM) (i : ℕ),
        (interiorDoc b)[2 * i]?
          = ((b.paragraphs.zip b.illus)[i]?).map (fun pr => PageKind.illusPage pr.2)
        ∧ (interiorDoc b)[2 * i + 1]?
          = ((b.paragraphs.zip b.illus)[i]?).map (fun pr => PageKind.textPage pr.1))
    ∧ interiorDoc sampleBook
        = [PageKind.illusPage sampleIll1, PageKind.textPage "The cat sat.",
            PageKind.illusPage sampleIll2, PageKind.textPage "The dog ran."] := by
  refine ⟨?_, ?_, ?_, rfl⟩
  · intro b h
    unfold interiorDoc
    rw [flatMap_pair_length]
    rw [List.length_zip, h, min_self]
  · intro b p hp c
    unfold interiorDoc at hp
    rcases List.mem_flatMap.mp hp with ⟨pr, _, hpr⟩
    rcases List.mem_cons.mp hpr with rfl | hpr'
    · intro hcontra; cases hcontra
    · rcases List.mem_singleton.mp hpr' with rfl
      intro hcontra; cases hcontra
  · intro b i
    exact flatMap_pair_getElem (b.paragraphs.zip b.illus) _ _ i

/-- Witness for C2: the sample book's interior document has 2×2 pages. -/
theorem interior_page_order_witness :
    (interiorDoc sampleBook).length = 2 * sampleBook.paragraphs.length :=
  interior_page_order.1 sampleBook rfl

/-! ## Missing required assets (claim C5) -/

/-- A book's collected input assets before assembly: the cover and the
per-paragraph illustrations may each be missing. -/
structure BookAssets where
  title : String
  paragraphs : List String
  cover : Option Raster
  illus : List (Option Raster)

/-- Whether some paragraph lacks its illustration raster. -/
def missingIllus (b : BookAssets) : Bool :=
  (List.range b.paragraphs.length).any
    (fun i => ((b.illus[i]?).bind id).isNone)

/-- Modelled from the spec: assembly of one book (spec 4.5 and 7;
`build_book.py` is not among the sources).  A missing required asset
(cover, or a paragraph's illustration) aborts the book with a diagnostic
and produces no output document; otherwise the interior document is
produced. -/
def assembleE (b : BookAssets) : Except String (List PageKind) :=
  match b.cover with
  | none => Except.error (b.title ++ ": missing cover image")
  | some c =>
    if missingIllus b then
      Except.error (b.title ++ ": missing illustration image")
    else
      Except.ok (interiorDoc ⟨b.title, b.paragraphs, c, b.illus.reduceOption⟩)

/-- Modelled from the spec: batch processing assembles each book
independently (spec 7: "batch processing of multiple books continues
past a failed book"). -/
def runBatch (books : List BookAssets) : List (Except String (List PageKind)) :=
  books.map assembleE

/-- Claim C5: a missing cover or a missing paragraph illustration aborts
that book with a diagnostic and no output document is produced for it,
and each book of a batch is assembled independently of the others, so a
failing book leaves every other book's result exactly what it would be
alone. -/
theorem missing_asset_aborts :
    (∀ b : BookAssets, b.cover = none → ∃ e, assembleE b = Except.error e)
    ∧ (∀ (b : BookAssets) (i : ℕ), i < b.paragraphs.length →
        (b.illus[i]?).bind id = none → ∃ e, assembleE b = Except.error e)
    ∧ (∀ b : BookAssets, (∃ e, assembleE b = Except.error e) →
        ∀ doc, assembleE b ≠ Except.ok doc)
    ∧ (∀ (books : List BookAssets) (j : ℕ),
        (runBatch books)[j]? = (books[j]?).map assembleE) := by
  refine ⟨?_, ?_, ?_, ?_⟩
  · intro b hb
    unfold assembleE
    rw [hb]
    exact ⟨_, rfl⟩
  · intro b i hi hnone
    have hmiss : missingIllus b = true := by
      unfold missingIllus
      rw [List.any_eq_true]
      exact ⟨i, List.mem_range.mpr hi, by rw [hnone]; rfl⟩
    cases hc : b.cover with
    | none =>
      refine ⟨b.title ++ ": missing cover image", ?_⟩
      simp [assembleE, hc]
    | some c =>
      refine ⟨b.title ++ ": missing illustration image", ?_⟩
      simp [assembleE, hc, hmiss]
  · intro b ⟨e, he⟩ doc
    rw [he]
    intro hcontra
    cases hcontra
  · intro books j
    unfold runBatch
    rw [List.getElem?_map]

/-- Witness book for C5 with a missing cover. -/
def brokenBook : BookAssets := ⟨"Broken", ["p1"], none, [some ⟨10, 10⟩]⟩

/-- Witness for C5: the cover-less book aborts with an error. -/
theorem missing_asset_aborts_witness :
    ∃ e, assembleE brokenBook = Except.error e :=
  missing_asset_aborts.1 brokenBook rfl

/-! ## Spine width (claim C6) -/

/-- The fixed output resolution (spec 6: "Both written at a fixed
resolution tag (300 DPI)"). -/
def DPI : ℕ := 300

/-- The spine slope configuration constant, inches per interior page
(spec 8, scenario 6: 0.002252 in/page). -/
def SPINE_SLOPE : ℚ := 2252 / 1000000

/-- The page-count threshold below which no spine is produced (spec 8,
scenario 6: threshold 100). -/
def SPINE_THRESHOLD : ℕ := 100

/-- Modelled from the spec: `spineWidthPx(pageCount)` (spec 4.1: "Spine
width is a linear function of total interior page count ... below the
threshold, spine width is 0"). -/
def spineWidthPx (pageCount : ℕ) : ℤ :=
  if pageCount < SPINE_THRESHOLD then 0
  else round (SPINE_SLOPE * pageCount * DPI)

/-- Modelled from the spec: whether the spine overlay (rotated title
text) is drawn (spec 4.4: "if spineWidthPx > 0, render the title ...").
-/
def spineDrawn (pageCount : ℕ) : Bool := decide (0 < spineWidthPx pageCount)

/-- Claim C6: below the threshold the spine width is 0 and no spine text
is drawn; at or above it the width is `round(slope × pageCount × DPI)`,
positive, with the overlay drawn; 20 interior pages give 0 and 120 give
`round(0.002252 × 120 × 300) = 81`. -/
theorem spine_width_linear :
    (∀ pc : ℕ, pc < SPINE_THRESHOLD →
      spineWidthPx pc = 0 ∧ spineDrawn pc = false)
    ∧ (∀ pc : ℕ, SPINE_THRESHOLD ≤ pc →
      spineWidthPx pc = round (SPINE_SLOPE * pc * DPI)
        ∧ 0 < spineWidthPx pc ∧ spineDrawn pc = true)
    ∧ spineWidthPx 20 = 0
    ∧ spineWidthPx 120 = round (SPINE_SLOPE * 120 * DPI)
    ∧ spineWidthPx 120 = 81 := by
  refine ⟨?_, ?_, rfl, rfl,
    by norm_num [spineWidthPx, SPINE_THRESHOLD, SPINE_SLOPE, DPI, round_eq]⟩
  · intro pc hpc
    have h0 : spineWidthPx pc = 0 := by
      unfold spineWidthPx
      rw [if_pos hpc]
    refine ⟨h0, ?_⟩
    unfold spineDrawn
    rw [h0]
    rfl
  · intro pc hpc
    have hform : spineWidthPx pc = round (SPINE_SLOPE * pc * DPI) := by
      unfold spineWidthPx
      rw [if_neg (not_lt.mpr hpc)]
    have hpc' : (100 : ℚ) ≤ (pc : ℚ) := by
      have : (100 : ℕ) ≤ pc := hpc
      exact_mod_cast this
    have hq : (1 : ℚ) ≤ SPINE_SLOPE * pc * DPI := by
      unfold SPINE_SLOPE DPI
      push_cast
      linarith
    have hpos : (1 : ℤ) ≤ round (SPINE_SLOPE * pc * DPI) := by
      have := roundQ_mono hq
      rwa [round_one] at this
    refine ⟨hform, by omega, ?_⟩
    unfold spineDrawn
    rw [decide_eq_true_eq]
    omega

/-- Witness for C6: 50 interior pages give no spine, 120 a positive one.
-/
theorem spine_width_linear_witness :
    spineWidthPx 50 = 0 ∧ 0 < spineWidthPx 120 :=
  ⟨(spine_width_linear.1 50 (by decide)).1,
    (spine_width_linear.2.1 120 (by decide)).2.1⟩

/-! ## Deterministic assembly (claim C7) -/

/-- An assemble-run environment: wall clock and random seed.  The spec
forbids any dependence on either (spec 4.5: "no randomness, no
wall-clock-dependent content"), so the modelled run takes the
environment as an explicit argument and never consults it. -/
structure RenderEnv where
  clock : ℕ
  rngSeed : ℕ

/-- Byte encoding of one rendered page of the serialized document. -/
def serializePage : PageKind → List ℕ
  | PageKind.coverPage r => [0, r.w, r.h]
  | PageKind.illusPage r => [1, r.w, r.h]
  | PageKind.textPage s => 2 :: s.length :: (s.toList.map Char.toNat)
  | PageKind.blankPage => [3]

/-- Byte encoding of a serialized multi-page document. -/
def serializeDoc (doc : List PageKind) : List ℕ := doc.flatMap serializePage

/-- Modelled from the spec: the cover-spread document, with the spine
overlay exactly when the interior page count reaches the threshold. -/
def coverDoc (b : BookM) : List PageKind :=
  if spineDrawn (2 * b.paragraphs.length) then
    [PageKind.coverPage b.cover, PageKind.textPage b.title]
  else
    [PageKind.coverPage b.cover]

/-- Modelled from the spec: one full assemble run producing the two
serialized output documents (interior, cover).  The environment is an
argument precisely so determinism is a statement, not a tautology about
a missing parameter. -/
def assembleRun (_env : RenderEnv) (b : BookM) : List ℕ × List ℕ :=
  (serializeDoc (interiorDoc b), serializeDoc (coverDoc b))

/-- Claim C7: two assemble runs on the same book agree byte for byte,
whatever the wall clock or random seed of either run. -/
theorem assemble_deterministic :
    ∀ (e1 e2 : RenderEnv) (b : BookM), assembleRun e1 b = assembleRun e2 b :=
  fun _ _ _ => rfl

end PictureBook
